import Mathlib

/-!
Verification development for the background processing pipeline of the
mini-pro repository (`backend/services/pipeline_worker.py`).

The embedding models:
* the `processing_queue` collection as a list of `Job` records, with the
  queue operations `enqueue_case`, `claim_next` (`_claim_next_job`),
  `finish_job` (`_finish_job`) and `fail_job_queue` / `fail_job`
  (`_fail_job`) translated from the MongoDB update documents in the source;
* the stage-successor skeleton of `_process_stage` (`stage_next`), and the
  worker iteration `process_next_job`;
* the MySQL "Relational Mirror" adapter functions, with a `MySQL` state
  whose `up` flag models whether `_mysql_execute` raises; functions that
  the source wraps in try/except are total, functions the source leaves
  unwrapped are `Except`-valued (the error is the propagating exception);
* the chunking stage (`_chunk_text` and the `translated`-stage branch of
  `_process_stage`) over a list of `case_chunks` records.

Timestamps are abstract naturals.  MongoDB writes are modelled as pure
state updates (the document store is assumed available except where a
claim is explicitly about its failure, where an explicit availability
flag appears).
-/

namespace MiniPro

/-- MAX_RETRIES constant from pipeline_worker.py (line 18). -/
def MAX_RETRIES : Nat := 3

/-- WORKER_ID constant from pipeline_worker.py (line 20). -/
def WORKER_ID : String := "local-pipeline-worker"

/-- One record of the `processing_queue` MongoDB collection.  `id` is the
Mongo `_id`, `case_id` references the owning `raw_judgments` document,
`worker_id`/`started_at` form the worker lease (absent fields are `none`). -/
structure Job where
  id : Nat
  case_id : Nat
  case_number : String
  stage : String
  status : String
  attempts : Nat
  error : Option String
  worker_id : Option String
  started_at : Option Nat
  created_at : Nat
  updated_at : Nat
  finished_at : Option Nat
deriving Repr, DecidableEq

/-- The `processing_queue` collection, in Mongo natural order. -/
abbrev Queue := List Job

/-- Mongo `update_one`: apply `f` to the first record matching `p`. -/
def updateFirst (p : Job → Bool) (f : Job → Job) : Queue → Queue
  | [] => []
  | j :: q => if p j then f j :: q else j :: updateFirst p f q

/-- Look a job up by `_id` (first match; `_id` values are unique in Mongo). -/
def findJob (q : Queue) (i : Nat) : Option Job :=
  q.find? (fun j => j.id == i)

/-- A job is eligible for claiming when its status is pending or retry
(the filter of `_claim_next_job`). -/
def eligible (j : Job) : Bool :=
  j.status == "pending" || j.status == "retry"

/-- The fresh job document `enqueue_case` inserts when no job for the
document exists: the upsert filter plus the set and setOnInsert clauses. -/
def newJob (freshId case_id : Nat) (case_number stage : String) (now : Nat) : Job :=
  { id := freshId
    case_id := case_id
    case_number := case_number
    stage := stage
    status := "pending"
    attempts := 0
    error := none
    worker_id := none
    started_at := none
    created_at := now
    updated_at := now
    finished_at := none }

/-- Embedding of `enqueue_case` (pipeline_worker.py lines 558-575): `update_one` on the
filter `case_id`, with upsert.  The set clause writes `case_id`,
`case_number`, `stage`, `status="pending"`, `error=None`, `updated_at`;
`attempts=0` and `created_at` are only set on insert.  Note the set clause
does not touch `worker_id`/`started_at`. -/
def enqueue_case (q : Queue) (freshId case_id : Nat) (case_number stage : String) (now : Nat) : Queue :=
  if q.any (fun j => j.case_id == case_id) then
    updateFirst (fun j => j.case_id == case_id)
      (fun j => { j with
                  case_id := case_id
                  case_number := case_number
                  stage := stage
                  status := "pending"
                  error := none
                  updated_at := now }) q
  else
    q ++ [newJob freshId case_id case_number stage now]

/-- The update applied to the claimed job by `_claim_next_job`:
`status="processing"`, `worker_id=WORKER_ID`, `started_at=now`, `updated_at=now`. -/
def claimJob (j : Job) (now : Nat) : Job :=
  { j with
    status := "processing"
    worker_id := some WORKER_ID
    started_at := some now
    updated_at := now }

/-- The `updated_at` values of the eligible jobs (the sort key of
`_claim_next_job`). -/
def eligibleUpdatedAts (q : Queue) : List Nat :=
  (q.filter eligible).map Job.updated_at

/-- Minimum of a list of naturals (`none` on the empty list). -/
def minNat : List Nat → Option Nat
  | [] => none
  | x :: xs =>
    match minNat xs with
    | none => some x
    | some y => some (min x y)

/-- Apply the claim update to the first eligible job whose `updated_at`
equals `m`, returning the updated document (ReturnDocument.AFTER). -/
def claimAt (m now : Nat) : Queue → Option Job × Queue
  | [] => (none, [])
  | j :: q =>
    if eligible j && j.updated_at == m then
      (some (claimJob j now), claimJob j now :: q)
    else
      let r := claimAt m now q
      (r.1, j :: r.2)

/-- Embedding of `_claim_next_job` (pipeline_worker.py lines 578-586):
`find_one_and_update` over status in {pending, retry}, sorted by
`updated_at` ascending (ties in natural order), setting the processing
status and a fresh lease in the same atomic operation; `none` when no
eligible job exists. -/
def claim_next (q : Queue) (now : Nat) : Option Job × Queue :=
  match minNat (eligibleUpdatedAts q) with
  | none => (none, q)
  | some m => claimAt m now q

/-- Embedding of `_finish_job` (pipeline_worker.py lines 589-607).  For
`next_stage = "completed"` it sets `stage="completed"`, `status="completed"`,
`finished_at`, and unsets the lease; otherwise it sets `stage=next_stage`,
`status="pending"` and unsets the lease. -/
def finish_job (q : Queue) (job_id : Nat) (next_stage : String) (now : Nat) : Queue :=
  if next_stage == "completed" then
    updateFirst (fun j => j.id == job_id)
      (fun j => { j with
                  stage := "completed"
                  status := "completed"
                  finished_at := some now
                  updated_at := now
                  worker_id := none
                  started_at := none }) q
  else
    updateFirst (fun j => j.id == job_id)
      (fun j => { j with
                  stage := next_stage
                  status := "pending"
                  updated_at := now
                  worker_id := none
                  started_at := none }) q

/-- The queue update of `_fail_job` (pipeline_worker.py lines 610-622):
the status decision uses the snapshot (`job.attempts + 1`, the Python
`attempts >= MAX_RETRIES`), the inc clause increments the stored record,
the lease is unset and the error text recorded. -/
def fail_job_queue (q : Queue) (job : Job) (err : String) (now : Nat) : Queue :=
  let status := if MAX_RETRIES ≤ job.attempts + 1 then "failed" else "retry"
  updateFirst (fun j => j.id == job.id)
    (fun j => { j with
                status := status
                error := some err
                updated_at := now
                attempts := j.attempts + 1
                worker_id := none
                started_at := none }) q

/-- The stage successor returned by each branch of `_process_stage`
(pipeline_worker.py lines 267-555): every handler returns the literal
written at the end of its branch; unknown stages fall through to the
final `return "completed"`. -/
def stage_next (s : String) : String :=
  if s = "uploaded" then "extracted"
  else if s = "extracted" then "cleaned"
  else if s = "cleaned" then "summarized"
  else if s = "summarized" then "translated"
  else if s = "translated" then "chunked"
  else if s = "chunked" then "embedded"
  else if s = "embedded" then "predicted"
  else if s = "predicted" then "completed"
  else "completed"

/-- The fixed stage ordering of the pipeline. -/
def stageOrder : List String :=
  ["uploaded", "extracted", "cleaned", "summarized", "translated",
   "chunked", "embedded", "predicted", "completed"]

/-- The stages that have a handler branch in `_process_stage` (all the
ordered stages except the terminal `completed`). -/
def handlerStages : List String :=
  ["uploaded", "extracted", "cleaned", "summarized", "translated",
   "chunked", "embedded", "predicted"]

/-- Position of a stage in the fixed ordering (9 for strings outside it). -/
def stageIdx (s : String) : Nat :=
  if s = "uploaded" then 0
  else if s = "extracted" then 1
  else if s = "cleaned" then 2
  else if s = "summarized" then 3
  else if s = "translated" then 4
  else if s = "chunked" then 5
  else if s = "embedded" then 6
  else if s = "predicted" then 7
  else if s = "completed" then 8
  else 9

/-- One iteration of `process_next_job` (pipeline_worker.py lines 630-639):
claim a job; on success run the stage and finish with the returned next
stage, or fail with the raised error (`outcome = some e`).  `now` is the
claim time, `now2` the finish/fail time. -/
def process_next_job (q : Queue) (outcome : Option String) (now now2 : Nat) : Queue :=
  match claim_next q now with
  | (none, q1) => q1
  | (some job, q1) =>
    match outcome with
    | none => finish_job q1 job.id (stage_next job.stage) now2
    | some e => fail_job_queue q1 job e now2

/-- One scheduler iteration as a step relation on queue states. -/
inductive WStep : Queue → Queue → Prop
  | step (q : Queue) (outcome : Option String) (now now2 : Nat) :
      WStep q (process_next_job q outcome now now2)

/-- Reflexive-transitive closure of scheduler iterations. -/
def WSteps : Queue → Queue → Prop :=
  Relation.ReflTransGen WStep

/-- Mongo `_id` uniqueness for the queue collection. -/
def UniqueIds (q : Queue) : Prop :=
  (q.map Job.id).Nodup

/-- Every job's stage is one of the ordered pipeline stages. -/
def ValidStages (q : Queue) : Prop :=
  ∀ j ∈ q, j.stage ∈ stageOrder

/-- The lease invariant: a job is in status processing exactly when its
worker lease (worker id and claimed-at timestamp) is set. -/
def LeaseInv (q : Queue) : Prop :=
  ∀ j ∈ q, (j.status = "processing" ↔ (j.worker_id ≠ none ∧ j.started_at ≠ none))

/-- One row of the MySQL `cases` table.  Only the columns the pipeline
reads back (`case_number`, `case_id`) and the always-overwritten `title`
are tracked; the COALESCE-updated metadata columns do not influence any
modelled behaviour. -/
structure CaseRow where
  case_number : String
  case_id : Nat
  title : String
deriving Repr, DecidableEq

/-- State of the MySQL Relational Mirror.  `up = false` models every
`_mysql_execute` call raising (connection or SQL failure); the row lists
model the mirror tables (numeric float columns are not tracked). -/
structure MySQL where
  up : Bool
  next_id : Nat
  case_rows : List CaseRow
  fact_rows : List (Nat × String × String)
  summary_rows : List (Nat × String)
  translation_rows : List (Nat × String × String × String)
  prediction_rows : List (Nat × Option String)
  similar_rows : List (Nat × Nat)
  sys_logs : List (String × String × String)
deriving Repr, DecidableEq

/-- Embedding of `_mysql_execute` (pipeline_worker.py lines 66-85): runs the statement
(a state update) and commits, or raises when the connection fails.  The
source has try/finally (cursor cleanup) but no except: exceptions
propagate to the caller. -/
def mysqlExec (db : MySQL) (f : MySQL → MySQL) : Except String MySQL :=
  if db.up then Except.ok (f db) else Except.error "MySQL connection failed"

/-- Embedding of `_log_system` (lines 88-98): the insert into system_logs is wrapped in
try/except pass, so a mirror failure leaves the state unchanged. -/
def log_system (db : MySQL) (module action details : String) : MySQL :=
  match mysqlExec db (fun d => { d with sys_logs := d.sys_logs ++ [(module, action, details.take 5000)] }) with
  | Except.ok d => d
  | Except.error _ => db

/-- Embedding of `_get_case_id_mysql` (lines 101-110): SELECT case_id by case_number,
with try/except returning None on any failure. -/
def get_case_id_mysql (db : MySQL) (case_number : String) : Option Nat :=
  if db.up then (db.case_rows.find? (fun r => r.case_number == case_number)).map CaseRow.case_id
  else none

/-- The `_v` helper (lines 42-47): None when the value is missing, blank
after stripping, or the literal "unknown" (case-insensitive). -/
def vOpt (val : Option String) : Option String :=
  match val with
  | none => none
  | some v =>
    let s := v.trim
    if s = "" || s.toLower = "unknown" then none else some s

/-- The stored `case_metadata` fields that `_upsert_case_mysql` uses to
build the canonical title (the other metadata columns are not tracked). -/
structure CaseMeta where
  title : Option String
  petitioner : Option String
  respondent : Option String
deriving Repr, DecidableEq

/-- Canonical title construction in `_upsert_case_mysql` (lines 122-132):
petitioner vs respondent when both present, else whichever exists, else
the cleaned incoming title, else the case number. -/
def canonicalTitle (case_number title : String) (meta : CaseMeta) : String :=
  match vOpt meta.petitioner, vOpt meta.respondent with
  | some p, some r => p ++ " vs " ++ r
  | some p, none => p
  | none, some r => r
  | none, none => (vOpt (some title)).getD case_number

/-- The INSERT ... ON DUPLICATE KEY UPDATE on the `cases` table: a new row
gets a fresh auto-increment id, an existing row keeps its id and has its
title overwritten. -/
def insertCaseRow (case_number title : String) (db : MySQL) : MySQL :=
  if db.case_rows.any (fun r => r.case_number == case_number) then
    { db with case_rows := db.case_rows.map (fun r =>
        if r.case_number == case_number then { r with title := title } else r) }
  else
    { db with
      case_rows := db.case_rows ++ [{ case_number := case_number, case_id := db.next_id, title := title }]
      next_id := db.next_id + 1 }

/-- Embedding of `_upsert_case_mysql` (lines 113-182): guard against placeholder case
numbers, then try the upsert; the whole SQL interaction is wrapped in
try/except, returning None (after a system log) on failure.  The Python
function also receives the clean text but never uses it in the SQL. -/
def upsert_case_mysql (db : MySQL) (case_number title : String) (meta : CaseMeta) :
    MySQL × Option Nat :=
  if case_number = "" || case_number.startsWith "CASE-" then
    (log_system db "pipeline" "sql_case_upsert_skipped" ("No real case_number: " ++ case_number), none)
  else
    match mysqlExec db (insertCaseRow case_number (canonicalTitle case_number title meta)) with
    | Except.ok db1 => (db1, get_case_id_mysql db1 case_number)
    | Except.error e => (log_system db "pipeline" "sql_case_upsert_error" e, none)

/-- The loop body of `_insert_fact_rows` (lines 185-195): one INSERT per
fact, indices starting at 1, no try/except around the statements. -/
def insertFactsFrom (cid : Nat) : MySQL → Nat → List String → Except String MySQL
  | db, _, [] => Except.ok db
  | db, idx, fact :: rest =>
    match mysqlExec db (fun x => { x with fact_rows := x.fact_rows ++ [(cid, "fact_" ++ toString idx, fact)] }) with
    | Except.error e => Except.error e
    | Except.ok d => insertFactsFrom cid d (idx + 1) rest

/-- Embedding of `_insert_fact_rows`: early return on an empty fact list, else the
insert loop; mirror failures propagate. -/
def insert_fact_rows (db : MySQL) (cid : Nat) (facts : List String) : Except String MySQL :=
  insertFactsFrom cid db 1 facts

/-- Embedding of `_upsert_summary` (lines 198-206): DELETE then INSERT on
case_summaries, no try/except — mirror failures propagate. -/
def upsert_summary (db : MySQL) (cid : Nat) (summary_text : String) : Except String MySQL :=
  match mysqlExec db (fun x => { x with summary_rows := x.summary_rows.filter (fun r => r.1 ≠ cid) }) with
  | Except.error e => Except.error e
  | Except.ok d => mysqlExec d (fun x => { x with summary_rows := x.summary_rows ++ [(cid, summary_text)] })

/-- Embedding of `_upsert_translation` (lines 209-217): DELETE then INSERT on
case_translations, no try/except — mirror failures propagate. -/
def upsert_translation (db : MySQL) (cid : Nat) (language_code translated_summary model_used : String) :
    Except String MySQL :=
  match mysqlExec db (fun x => { x with translation_rows := x.translation_rows.filter (fun r => r.1 ≠ cid) }) with
  | Except.error e => Except.error e
  | Except.ok d => mysqlExec d (fun x => { x with translation_rows := x.translation_rows ++ [(cid, language_code, translated_summary, model_used)] })

/-- Embedding of `_upsert_prediction` (lines 220-237): DELETE then INSERT on
case_predictions, no try/except — mirror failures propagate (the float
probability columns are not tracked). -/
def upsert_prediction (db : MySQL) (cid : Nat) (predicted_outcome : Option String) :
    Except String MySQL :=
  match mysqlExec db (fun x => { x with prediction_rows := x.prediction_rows.filter (fun r => r.1 ≠ cid) }) with
  | Except.error e => Except.error e
  | Except.ok d => mysqlExec d (fun x => { x with prediction_rows := x.prediction_rows ++ [(cid, predicted_outcome)] })

/-- The insert loop of `_replace_similar_cases` (lines 242-251): look each
similar case number up (swallowing lookup failures into None) and insert
a link row when a distinct target id was found. -/
def insertSimilarFrom (source : Nat) : MySQL → List String → Except String MySQL
  | db, [] => Except.ok db
  | db, scn :: rest =>
    match
      (match get_case_id_mysql db scn with
       | some t =>
         if t ≠ 0 ∧ t ≠ source then
           mysqlExec db (fun x => { x with similar_rows := x.similar_rows ++ [(source, t)] })
         else Except.ok db
       | none => Except.ok db) with
    | Except.error e => Except.error e
    | Except.ok d => insertSimilarFrom source d rest

/-- Embedding of `_replace_similar_cases` (lines 240-251): DELETE then the insert loop,
no try/except around the statements — mirror failures propagate. -/
def replace_similar_cases (db : MySQL) (source : Nat) (similar_case_numbers : List String) :
    Except String MySQL :=
  match mysqlExec db (fun x => { x with similar_rows := x.similar_rows.filter (fun r => r.1 ≠ source) }) with
  | Except.error e => Except.error e
  | Except.ok d => insertSimilarFrom source d similar_case_numbers

/-- Embedding of `_first_line_title` (lines 31-34): text before the first dot, at most
150 characters, stripped, with "Untitled Case" as fallback. -/
def first_line_title (text : String) : String :=
  if text = "" then "Untitled Case"
  else
    let t := (((text.splitOn ".").headD "").take 150).trim
    if t = "" then "Untitled Case" else t

/-- Character-level embedding of the sentence split in `_extract_facts`
(line 38): a boundary is a whitespace run immediately preceded by '.',
'!' or '?'; the whole whitespace run is consumed.  `acc` is the current
token reversed; `skipping` is true while inside a consumed run. -/
def splitSentencesAux : List Char → List Char → Bool → List String
  | [], acc, _ => [String.mk acc.reverse]
  | c :: rest, acc, skipping =>
    if skipping ∧ c.isWhitespace ∧ acc = [] then
      splitSentencesAux rest [] true
    else if (acc.head? = some '.' ∨ acc.head? = some '!' ∨ acc.head? = some '?') ∧ c.isWhitespace then
      String.mk acc.reverse :: splitSentencesAux rest [] true
    else
      splitSentencesAux rest (c :: acc) false

/-- Sentence split of a whole string. -/
def splitSentences (text : String) : List String :=
  splitSentencesAux text.data [] false

/-- Embedding of `_extract_facts` (lines 37-39): sentences of the clean text, stripped,
non-empty, first five. -/
def extract_facts (clean_text : String) : List String :=
  (((splitSentences clean_text).map String.trim).filter (fun s => s ≠ "")).take 5

/-- The structured summary produced by `summarize_structured`
(backend/ai/summarizer.py), as consumed by the cleaned stage. -/
structure StructuredSummary where
  key_points : List String
  short_summary : String
  detailed_summary : Option String
deriving Repr, DecidableEq

/-- The fields of a `raw_judgments` document that the modelled stages read
and write. -/
structure CaseDoc where
  doc_id : Nat
  raw_text : String
  clean_text : String
  title : String
  case_id_mysql : Option Nat
  processing_status : String
  error_logs : List String
deriving Repr, DecidableEq

/-- Python `a or b` on an optional integer (line 318): `a` is kept only
when present and nonzero (0 is falsy in Python). -/
def orFalsy (a b : Option Nat) : Option Nat :=
  match a with
  | some i => if i = 0 then b else some i
  | none => b

/-- The `extracted`-stage branch of `_process_stage` (lines 283-314),
with `normalize` standing for `text_pipeline.normalize_text` and the
audit inserts not tracked.  The only mirror interaction is
`_upsert_case_mysql` (which swallows its own failures) and the final
`_log_system`; the Mongo document update is a pure state change. -/
def extractedStage (db : MySQL) (doc : CaseDoc) (case_number : String)
    (normalize : String → String) (meta : CaseMeta) :
    Except String (MySQL × CaseDoc × String) :=
  let normalized := normalize doc.raw_text
  let title0 := first_line_title normalized
  let title :=
    match meta.title with
    | some t => if t ≠ "" then t else title0
    | none => title0
  let r := upsert_case_mysql db case_number title meta
  let doc1 := { doc with
    case_id_mysql := r.2
    title := title
    clean_text := normalized
    processing_status := "cleaned" }
  let db1 := log_system r.1 "pipeline" "cleaned" case_number
  Except.ok (db1, doc1, "cleaned")

/-- The `cleaned`-stage branch of `_process_stage` (lines 316-365), with
`summarize` standing for `summarize_structured` and `basic_of` for
`make_basic_summary`.  When a usable mirror case id is known, the branch
runs DELETE FROM case_facts, `_insert_fact_rows` and `_upsert_summary`
with no try/except: a mirror failure there propagates out of the stage.
The Mongo case_facts/case_summaries upserts are pure document-store
writes and are not tracked. -/
def cleanedStage (db : MySQL) (doc : CaseDoc) (case_number : String)
    (normalize : String → String) (summarize : String → StructuredSummary)
    (basic_of : String → String) :
    Except String (MySQL × CaseDoc × String) :=
  let clean := if doc.clean_text ≠ "" then doc.clean_text else normalize doc.raw_text
  let cid? := orFalsy doc.case_id_mysql (get_case_id_mysql db case_number)
  let facts := extract_facts clean
  let structured := summarize clean
  let _basic := basic_of clean
  let summary := String.intercalate "\n" (structured.key_points.map (fun p => "- " ++ p))
  match
    (match cid? with
     | some cid =>
       (match mysqlExec db (fun x => { x with fact_rows := x.fact_rows.filter (fun r => r.1 ≠ cid) }) with
        | Except.error e => Except.error e
        | Except.ok d =>
          match insert_fact_rows d cid facts with
          | Except.error e => Except.error e
          | Except.ok d2 => upsert_summary d2 cid (structured.detailed_summary.getD summary))
     | none => Except.ok db) with
  | Except.error e => Except.error e
  | Except.ok db1 =>
    let doc1 := { doc with
      case_id_mysql := cid?
      processing_status := "summarized" }
    let db2 := log_system db1 "pipeline" "summarized" case_number
    Except.ok (db2, doc1, "summarized")

/-- Result of a full `_fail_job` call, separating the already-applied
writes from a propagated exception. -/
structure FailOutcome where
  queue : Queue
  docs : List CaseDoc
  log : MySQL
  raised : Option String
deriving Repr, DecidableEq

/-- Mongo `update_one` on the raw_judgments collection. -/
def updateFirstDoc (p : CaseDoc → Bool) (f : CaseDoc → CaseDoc) : List CaseDoc → List CaseDoc
  | [] => []
  | d :: ds => if p d then f d :: ds else d :: updateFirstDoc p f ds

/-- Embedding of `_fail_job` (lines 610-627) in full: the processing_queue update, then
the raw_judgments update (processing_status="failed" plus an appended
error-log entry), then `_log_system`.  The document-store write is not
wrapped in try/except in the source: when it raises (`docStoreUp =
false`) the exception propagates out of `_fail_job` (`raised` is set)
after the queue update has already been applied, and the system log is
skipped. -/
def fail_job (q : Queue) (docs : List CaseDoc) (db : MySQL) (docStoreUp : Bool)
    (job : Job) (err : String) (now : Nat) : FailOutcome :=
  let q1 := fail_job_queue q job err now
  if docStoreUp then
    let docs1 := updateFirstDoc (fun d => d.doc_id == job.case_id)
      (fun d => { d with
        processing_status := "failed"
        error_logs := d.error_logs ++ [toString now ++ " " ++ err] }) docs
    { queue := q1
      docs := docs1
      log := log_system db "pipeline" "error" err
      raised := none }
  else
    { queue := q1
      docs := docs
      log := db
      raised := some "document store write failed" }

/-- The Python `str.split()` used by `_chunk_text` (line 51): split on
whitespace runs, dropping empty pieces. -/
def splitWords (text : String) : List String :=
  (text.split Char.isWhitespace).filter (fun w => w ≠ "")

/-- The windowing loop of `_chunk_text` (lines 54-63): emit the joined
stripped window of `chunk_size` words, stop when the window reached the
end of the word list, else advance by `stepPred + 1` words (the Python
`step = max(1, chunk_size - overlap)`). -/
def chunkWindows (chunk_size stepPred : Nat) (ws : List String) : List String :=
  let chunk := (" ".intercalate (ws.take chunk_size)).trim
  if _h : ws.length ≤ chunk_size then
    if chunk = "" then [] else [chunk]
  else
    (if chunk = "" then [] else [chunk]) ++ chunkWindows chunk_size stepPred (ws.drop (stepPred + 1))
termination_by ws.length
decreasing_by
  simp only [List.length_drop]
  omega

/-- Embedding of `_chunk_text` (lines 50-63): empty input gives no chunks, otherwise
the sliding-window split with chunk size 180 and overlap 40 in the
pipeline. -/
def chunk_text (text : String) (chunk_size overlap : Nat) : List String :=
  let words := splitWords text
  if words = [] then [] else chunkWindows chunk_size (chunk_size - overlap - 1) words

/-- One record of the `case_chunks` collection. -/
structure ChunkRec where
  case_id : Nat
  case_number : String
  chunk_index : Nat
  text : String
  created_at : Nat
deriving Repr, DecidableEq

/-- The `translated`-stage branch of `_process_stage` (lines 426-459)
restricted to the chunk data it writes: re-derive the clean text when
absent, chunk it, delete_many all chunk records of the case, insert one
record per chunk keyed by chunk index, mark the document chunked, and
return the next stage name. -/
def chunkStage (col : List ChunkRec) (doc : CaseDoc) (case_number : String)
    (normalize : String → String) (now : Nat) :
    List ChunkRec × CaseDoc × String :=
  let clean := if doc.clean_text ≠ "" then doc.clean_text else normalize doc.raw_text
  let cs := chunk_text clean 180 40
  let kept := col.filter (fun c => c.case_id ≠ doc.doc_id)
  let inserted := cs.enum.map (fun p => { case_id := doc.doc_id
                                          case_number := case_number
                                          chunk_index := p.1
                                          text := p.2
                                          created_at := now : ChunkRec })
  (kept ++ inserted, { doc with processing_status := "chunked" }, "chunked")

/-- First job of the queue whose `case_id` matches (the enqueue filter). -/
def findCase (q : Queue) (c : Nat) : Option Job :=
  q.find? (fun j => j.case_id == c)

/-- At most one job record for a given document id. -/
def OneJobPerCase (q : Queue) (c : Nat) : Prop :=
  (q.filter (fun j => j.case_id == c)).length ≤ 1

/-- An empty, reachable MySQL mirror state. -/
def dbUp : MySQL :=
  { up := true, next_id := 1, case_rows := [], fact_rows := [], summary_rows := []
    translation_rows := [], prediction_rows := [], similar_rows := [], sys_logs := [] }

/-- The same mirror state with the connection failing. -/
def dbDown : MySQL := { dbUp with up := false }

/-- A trivial structured summarizer used for concrete evaluations. -/
def sumConst : String → StructuredSummary :=
  fun _ => { key_points := [], short_summary := "", detailed_summary := none }

/-- A document whose extracted stage already recorded a mirror case id. -/
def docMirror : CaseDoc :=
  { doc_id := 11, raw_text := "Raw one. Raw two.", clean_text := "Alpha beta. Gamma!"
    title := "", case_id_mysql := some 1, processing_status := "cleaned", error_logs := [] }

/-- A claimed job at the last handler stage. -/
def jobPredicted : Job :=
  { id := 1, case_id := 11, case_number := "CRM-1", stage := "predicted"
    status := "processing", attempts := 0, error := none, worker_id := some WORKER_ID
    started_at := some 3, created_at := 0, updated_at := 3, finished_at := none }

/-- Singleton queue holding `jobPredicted`. -/
def qPredicted : Queue := [jobPredicted]

/-- A freshly enqueued job at the first stage. -/
def jobWaiting : Job := newJob 1 11 "CRM-1" "uploaded" 0

/-- Singleton queue holding `jobWaiting`. -/
def qWaiting : Queue := [jobWaiting]

/-- A job whose retry budget is exhausted (attempts = MAX_RETRIES). -/
def jobExhausted : Job :=
  { newJob 4 44 "CRM-4" "cleaned" 2 with status := "failed", attempts := 3, error := some "x" }

/-- Singleton queue holding `jobExhausted`. -/
def qExhausted : Queue := [jobExhausted]

/-- Whether an Except-valued mirror interaction returned without raising. -/
def exceptOk {α : Type} : Except String α → Bool
  | Except.ok _ => true
  | Except.error _ => false

/-- The chunk records stored for one document. -/
def chunksOf (col : List ChunkRec) (d : Nat) : List ChunkRec :=
  col.filter (fun c => c.case_id == d)

/-- A queue with one pending job and one older retry job. -/
def qC5 : Queue :=
  [newJob 1 11 "CRM-1" "extracted" 10,
   { newJob 2 22 "CRM-2" "extracted" 4 with status := "retry" }]

/-- A claimed mid-pipeline job with one prior attempt. -/
def jobMid : Job :=
  { newJob 5 55 "CRM-5" "summarized" 6 with
    status := "processing", attempts := 1, worker_id := some WORKER_ID, started_at := some 6 }

/-- Singleton queue holding `jobMid`. -/
def qMid : Queue := [jobMid]

/-! ### Generic lemmas about the Mongo update and lookup primitives -/

theorem length_updateFirst (p : Job → Bool) (f : Job → Job) (q : Queue) :
    (updateFirst p f q).length = q.length := by
  induction q with
  | nil => rfl
  | cons j t ih =>
    simp only [updateFirst]
    by_cases h : p j
    · simp [h]
    · simp [h, ih]

theorem mem_updateFirst (p : Job → Bool) (f : Job → Job) (q : Queue) :
    ∀ x ∈ updateFirst p f q, x ∈ q ∨ ∃ j, j ∈ q ∧ p j = true ∧ x = f j := by
  induction q with
  | nil => intro x hx; cases hx
  | cons j t ih =>
    intro x hx
    simp only [updateFirst] at hx
    by_cases h : p j
    · simp [h] at hx
      rcases hx with hx | hx
      · exact Or.inr ⟨j, by simp, h, hx⟩
      · exact Or.inl (by simp [hx])
    · simp [h] at hx
      rcases hx with hx | hx
      · exact Or.inl (by simp [hx])
      · rcases ih x hx with h1 | ⟨j1, hj1, hpj1, hxj1⟩
        · exact Or.inl (by simp [h1])
        · exact Or.inr ⟨j1, by simp [hj1], hpj1, hxj1⟩

theorem map_id_updateFirst (p : Job → Bool) (f : Job → Job)
    (hf : ∀ j, (f j).id = j.id) (q : Queue) :
    (updateFirst p f q).map Job.id = q.map Job.id := by
  induction q with
  | nil => rfl
  | cons j t ih =>
    simp only [updateFirst]
    by_cases h : p j
    · simp [h, hf]
    · simp [h, ih]

theorem find?_updateFirst (p : Job → Bool) (f : Job → Job)
    (hf : ∀ j, p j = true → p (f j) = true) (q : Queue) :
    (updateFirst p f q).find? p = (q.find? p).map f := by
  induction q with
  | nil => rfl
  | cons j t ih =>
    simp only [updateFirst]
    by_cases h : p j
    · rw [if_pos h, List.find?_cons_of_pos _ (hf j h), List.find?_cons_of_pos _ h]
      rfl
    · rw [if_neg h, List.find?_cons_of_neg _ (by simpa using h),
        List.find?_cons_of_neg _ (by simpa using h), ih]

theorem findJob_updateFirst_self (i : Nat) (f : Job → Job)
    (hf : ∀ j, (f j).id = j.id) (q : Queue) :
    findJob (updateFirst (fun j => j.id == i) f q) i = (findJob q i).map f := by
  unfold findJob
  exact find?_updateFirst _ f (fun j hj => by simpa [hf] using hj) q

theorem findJob_updateFirst_ne (i k : Nat) (hk : k ≠ i) (f : Job → Job)
    (hf : ∀ j, (f j).id = j.id) (q : Queue) :
    findJob (updateFirst (fun j => j.id == i) f q) k = findJob q k := by
  induction q with
  | nil => rfl
  | cons j t ih =>
    simp only [updateFirst, findJob]
    by_cases h : j.id = i
    · rw [if_pos (by simpa using h)]
      rw [List.find?_cons_of_neg _ (by simp [hf, h, Ne.symm hk]),
        List.find?_cons_of_neg _ (by simp [h, Ne.symm hk])]
    · rw [if_neg (by simpa using h)]
      by_cases h2 : j.id = k
      · rw [List.find?_cons_of_pos _ (by simpa using h2),
          List.find?_cons_of_pos _ (by simpa using h2)]
      · rw [List.find?_cons_of_neg _ (by simpa using h2),
          List.find?_cons_of_neg _ (by simpa using h2)]
        exact ih

theorem findJob_isSome_iff (q : Queue) (i : Nat) :
    (findJob q i).isSome ↔ i ∈ q.map Job.id := by
  induction q with
  | nil => simp [findJob]
  | cons j t ih =>
    simp only [findJob] at ih ⊢
    by_cases h : j.id = i
    · rw [List.find?_cons_of_pos _ (by simpa using h)]
      simp [h]
    · rw [List.find?_cons_of_neg _ (by simpa using h)]
      simp [ih, Ne.symm h]

theorem findJob_mem (q : Queue) (i : Nat) (j : Job) (h : findJob q i = some j) :
    j ∈ q ∧ j.id = i := by
  have h1 := List.find?_some h
  have h2 := List.mem_of_find?_eq_some h
  exact ⟨h2, by simpa using h1⟩

/-! ### Characterization of the atomic claim -/

theorem minNat_eq_none_iff (l : List Nat) : minNat l = none ↔ l = [] := by
  cases l with
  | nil => simp [minNat]
  | cons x xs =>
    simp only [minNat]
    cases minNat xs <;> simp

theorem minNat_spec (l : List Nat) (m : Nat) (h : minNat l = some m) :
    m ∈ l ∧ ∀ x ∈ l, m ≤ x := by
  induction l generalizing m with
  | nil => simp [minNat] at h
  | cons x xs ih =>
    simp only [minNat] at h
    cases hxs : minNat xs with
    | none =>
      rw [hxs] at h
      have hx : m = x := by simpa using h.symm
      have hnil : xs = [] := (minNat_eq_none_iff xs).mp hxs
      subst hx hnil
      simp
    | some y =>
      rw [hxs] at h
      have hm : m = min x y := by simpa using h.symm
      rcases ih y hxs with ⟨hmem, hle⟩
      subst hm
      constructor
      · rcases le_total x y with hxy | hyx
        · rw [min_eq_left hxy]; simp
        · rw [min_eq_right hyx]
          exact List.mem_cons_of_mem _ hmem
      · intro z hz
        rcases List.mem_cons.mp hz with hz | hz
        · subst hz; exact min_le_left _ _
        · exact le_trans (min_le_right _ _) (hle z hz)

theorem mem_eligibleUpdatedAts (q : Queue) (m : Nat) :
    m ∈ eligibleUpdatedAts q ↔ ∃ j ∈ q, eligible j = true ∧ j.updated_at = m := by
  simp only [eligibleUpdatedAts, List.mem_map, List.mem_filter]
  constructor
  · rintro ⟨j, ⟨hj, he⟩, hm⟩
    exact ⟨j, hj, he, hm⟩
  · rintro ⟨j, hj, he, hm⟩
    exact ⟨j, ⟨hj, he⟩, hm⟩

theorem claimAt_spec (m now : Nat) (q : Queue)
    (hex : ∃ j ∈ q, eligible j = true ∧ j.updated_at = m) :
    ∃ l j r, q = l ++ j :: r ∧ eligible j = true ∧ j.updated_at = m ∧
      (∀ x ∈ l, ¬(eligible x = true ∧ x.updated_at = m)) ∧
      claimAt m now q = (some (claimJob j now), l ++ claimJob j now :: r) := by
  induction q with
  | nil => simp at hex
  | cons j t ih =>
    by_cases h : eligible j = true ∧ j.updated_at = m
    · refine ⟨[], j, t, by simp, h.1, h.2, by simp, ?_⟩
      simp only [claimAt]
      rw [if_pos (by simp [h.1, h.2])]
      rfl
    · have hex2 : ∃ x ∈ t, eligible x = true ∧ x.updated_at = m := by
        rcases hex with ⟨x, hx, hex⟩
        rcases List.mem_cons.mp hx with hx | hx
        · exact absurd (hx ▸ hex) h
        · exact ⟨x, hx, hex⟩
      rcases ih hex2 with ⟨l, j1, r, hdec, he, hm, hl, hres⟩
      refine ⟨j :: l, j1, r, by simp [hdec], he, hm, ?_, ?_⟩
      · intro x hx
        rcases List.mem_cons.mp hx with hx | hx
        · exact hx ▸ h
        · exact hl x hx
      · simp only [claimAt]
        rw [if_neg (by
          intro hc
          exact h (by simpa using hc))]
        simp [hres]

theorem claim_next_none (q : Queue) (now : Nat)
    (h : (claim_next q now).1 = none) :
    (claim_next q now).2 = q ∧ ∀ j ∈ q, eligible j = false := by
  cases hmin : minNat (eligibleUpdatedAts q) with
  | none =>
    have heq : claim_next q now = (none, q) := by unfold claim_next; rw [hmin]
    have hnil := (minNat_eq_none_iff _).mp hmin
    have hall : ∀ j ∈ q, eligible j = false := by
      intro j hj
      by_contra hc
      have he : eligible j = true := by
        cases h2 : eligible j
        · exact absurd h2 hc
        · rfl
      have : j.updated_at ∈ eligibleUpdatedAts q :=
        (mem_eligibleUpdatedAts q _).mpr ⟨j, hj, he, rfl⟩
      rw [hnil] at this
      cases this
    exact ⟨by rw [heq], hall⟩
  | some m =>
    exfalso
    rcases minNat_spec _ m hmin with ⟨hmem, _⟩
    rcases (mem_eligibleUpdatedAts q m).mp hmem with ⟨j, hj, he, hm⟩
    rcases claimAt_spec m now q ⟨j, hj, he, hm⟩ with ⟨l, j1, r, _, _, _, _, hres⟩
    have heq : claim_next q now = claimAt m now q := by unfold claim_next; rw [hmin]
    rw [heq, hres] at h
    simp at h

theorem claim_next_some (q : Queue) (now : Nat) (k : Job)
    (h : (claim_next q now).1 = some k) :
    ∃ l j r, q = l ++ j :: r ∧ eligible j = true ∧ k = claimJob j now ∧
      (claim_next q now).2 = l ++ claimJob j now :: r ∧
      (∀ x ∈ l, ¬(eligible x = true ∧ x.updated_at = j.updated_at)) ∧
      (∀ x ∈ q, eligible x = true → j.updated_at ≤ x.updated_at) := by
  cases hmin : minNat (eligibleUpdatedAts q) with
  | none =>
    have heq : claim_next q now = (none, q) := by unfold claim_next; rw [hmin]
    rw [heq] at h
    simp at h
  | some m =>
    have heq : claim_next q now = claimAt m now q := by unfold claim_next; rw [hmin]
    rcases minNat_spec _ m hmin with ⟨hmem, hle⟩
    rcases (mem_eligibleUpdatedAts q m).mp hmem with ⟨j0, hj0, he0, hm0⟩
    rcases claimAt_spec m now q ⟨j0, hj0, he0, hm0⟩ with ⟨l, j1, r, hdec, he1, hm1, hl, hres⟩
    rw [heq, hres] at h
    have hk : k = claimJob j1 now := by simpa using h.symm
    refine ⟨l, j1, r, hdec, he1, hk, ?_, ?_, ?_⟩
    · rw [heq, hres]
    · intro x hx
      rw [hm1]
      exact hl x hx
    · intro x hx hex
      rw [hm1]
      exact hle _ ((mem_eligibleUpdatedAts q _).mpr ⟨x, hx, hex, rfl⟩)

/-! ### Lookups across a list decomposition -/

theorem findJob_append_replace (l r : Queue) (j x : Job) (k : Nat)
    (hx : x.id = j.id) (hk : k ≠ j.id) :
    findJob (l ++ x :: r) k = findJob (l ++ j :: r) k := by
  induction l with
  | nil =>
    simp only [List.nil_append, findJob]
    rw [List.find?_cons_of_neg _ (by simp [hx, Ne.symm hk]),
      List.find?_cons_of_neg _ (by simp [Ne.symm hk])]
  | cons y t ih =>
    simp only [List.cons_append, findJob]
    by_cases h : y.id = k
    · rw [List.find?_cons_of_pos _ (by simpa using h),
        List.find?_cons_of_pos _ (by simpa using h)]
    · rw [List.find?_cons_of_neg _ (by simpa using h),
        List.find?_cons_of_neg _ (by simpa using h)]
      exact ih

theorem findJob_append_first (l r : Queue) (x : Job) (i : Nat)
    (hl : ∀ y ∈ l, y.id ≠ i) (hx : x.id = i) :
    findJob (l ++ x :: r) i = some x := by
  induction l with
  | nil =>
    simp only [List.nil_append, findJob]
    rw [List.find?_cons_of_pos _ (by simpa using hx)]
  | cons y t ih =>
    simp only [List.cons_append, findJob]
    rw [List.find?_cons_of_neg _ (by simpa using hl y (by simp))]
    exact ih (fun z hz => hl z (by simp [hz]))

theorem uniqueIds_decomp (l r : Queue) (j : Job)
    (h : UniqueIds (l ++ j :: r)) :
    ∀ y ∈ l, y.id ≠ j.id := by
  intro y hy
  unfold UniqueIds at h
  rw [List.map_append, List.map_cons] at h
  rcases List.nodup_append.mp h with ⟨_, _, hdisj⟩
  intro hc
  exact hdisj (List.mem_map_of_mem Job.id hy) (by simp [hc])

/-! ### Preservation of ids, stages and statuses across scheduler steps -/

theorem claim_next_map_id (q : Queue) (now : Nat) :
    ((claim_next q now).2).map Job.id = q.map Job.id := by
  cases hk : (claim_next q now).1 with
  | none => rw [(claim_next_none q now hk).1]
  | some k =>
    rcases claim_next_some q now k hk with ⟨l, j, r, hdec, _, _, hq2, _, _⟩
    rw [hq2, hdec]
    simp [claimJob]

theorem finish_job_map_id (q : Queue) (i : Nat) (ns : String) (now : Nat) :
    (finish_job q i ns now).map Job.id = q.map Job.id := by
  unfold finish_job
  by_cases h : ns == "completed"
  · rw [if_pos h]
    apply map_id_updateFirst
    intro j
    rfl
  · rw [if_neg h]
    apply map_id_updateFirst
    intro j
    rfl

theorem fail_job_queue_map_id (q : Queue) (job : Job) (e : String) (now : Nat) :
    (fail_job_queue q job e now).map Job.id = q.map Job.id := by
  simp only [fail_job_queue]
  apply map_id_updateFirst
  intro j
  rfl

theorem process_next_job_map_id (q : Queue) (o : Option String) (now now2 : Nat) :
    (process_next_job q o now now2).map Job.id = q.map Job.id := by
  unfold process_next_job
  cases hk : claim_next q now with
  | mk fst snd =>
    have hsnd : snd.map Job.id = q.map Job.id := by
      have hmap := claim_next_map_id q now
      rw [hk] at hmap
      exact hmap
    cases fst with
    | none => simpa using hsnd
    | some job =>
      cases o with
      | none => exact (finish_job_map_id snd job.id (stage_next job.stage) now2).trans hsnd
      | some e => exact (fail_job_queue_map_id snd job e now2).trans hsnd

theorem wstep_map_id (q q' : Queue) (h : WStep q q') :
    q'.map Job.id = q.map Job.id := by
  cases h with
  | step o now now2 => exact process_next_job_map_id q o now now2

theorem wsteps_map_id (q q' : Queue) (h : WSteps q q') :
    q'.map Job.id = q.map Job.id := by
  induction h with
  | refl => rfl
  | tail _ hstep ih => exact (wstep_map_id _ _ hstep).trans ih

theorem wsteps_uniqueIds (q q' : Queue) (h : WSteps q q') (hq : UniqueIds q) :
    UniqueIds q' := by
  unfold UniqueIds
  rw [wsteps_map_id q q' h]
  exact hq

/-! ### Lookups through finish and fail -/

theorem findJob_finish_completed (q : Queue) (i now : Nat) :
    findJob (finish_job q i "completed" now) i =
      (findJob q i).map (fun j => { j with
        stage := "completed"
        status := "completed"
        finished_at := some now
        updated_at := now
        worker_id := none
        started_at := none }) := by
  unfold finish_job
  rw [if_pos (by rfl)]
  apply findJob_updateFirst_self
  intro j
  rfl

theorem findJob_finish_advance (q : Queue) (i : Nat) (ns : String) (now : Nat)
    (hns : ns ≠ "completed") :
    findJob (finish_job q i ns now) i =
      (findJob q i).map (fun j => { j with
        stage := ns
        status := "pending"
        updated_at := now
        worker_id := none
        started_at := none }) := by
  unfold finish_job
  rw [if_neg (by simpa using hns)]
  apply findJob_updateFirst_self
  intro j
  rfl

theorem findJob_finish_ne (q : Queue) (i : Nat) (ns : String) (now k : Nat)
    (hk : k ≠ i) :
    findJob (finish_job q i ns now) k = findJob q k := by
  unfold finish_job
  by_cases h : ns == "completed"
  · rw [if_pos h]
    apply findJob_updateFirst_ne i k hk
    intro j
    rfl
  · rw [if_neg h]
    apply findJob_updateFirst_ne i k hk
    intro j
    rfl

theorem findJob_fail_self (q : Queue) (job : Job) (e : String) (now : Nat) :
    findJob (fail_job_queue q job e now) job.id =
      (findJob q job.id).map (fun j => { j with
        status := if MAX_RETRIES ≤ job.attempts + 1 then "failed" else "retry"
        error := some e
        updated_at := now
        attempts := j.attempts + 1
        worker_id := none
        started_at := none }) := by
  simp only [fail_job_queue]
  apply findJob_updateFirst_self
  intro j
  rfl

theorem findJob_fail_ne (q : Queue) (job : Job) (e : String) (now k : Nat)
    (hk : k ≠ job.id) :
    findJob (fail_job_queue q job e now) k = findJob q k := by
  simp only [fail_job_queue]
  apply findJob_updateFirst_ne job.id k hk
  intro j
  rfl

/-! ### Stage ordering facts -/

theorem stage_next_mem_stageOrder (s : String) : stage_next s ∈ stageOrder := by
  unfold stage_next stageOrder
  split_ifs <;> simp

theorem stageIdx_le_stage_next (s : String) (hs : s ∈ stageOrder) :
    stageIdx s ≤ stageIdx (stage_next s) := by
  simp only [stageOrder, List.mem_cons, List.not_mem_nil, or_false] at hs
  rcases hs with rfl | rfl | rfl | rfl | rfl | rfl | rfl | rfl | rfl <;> decide

theorem validStages_claim_next (q : Queue) (now : Nat) (h : ValidStages q) :
    ValidStages (claim_next q now).2 := by
  cases hk : (claim_next q now).1 with
  | none =>
    rw [(claim_next_none q now hk).1]
    exact h
  | some k =>
    rcases claim_next_some q now k hk with ⟨l, j, r, hdec, _, _, hq2, _, _⟩
    rw [hq2]
    intro x hx
    rcases List.mem_append.mp hx with hx | hx
    · exact h x (by rw [hdec]; exact List.mem_append.mpr (Or.inl hx))
    · rcases List.mem_cons.mp hx with hx | hx
      · subst hx
        exact h j (by rw [hdec]; simp)
      · exact h x (by rw [hdec]; simp [hx])

theorem validStages_finish (q : Queue) (i : Nat) (ns : String) (now : Nat)
    (hns : ns ∈ stageOrder) (h : ValidStages q) :
    ValidStages (finish_job q i ns now) := by
  intro x hx
  unfold finish_job at hx
  by_cases hb : ns == "completed"
  · rw [if_pos hb] at hx
    rcases mem_updateFirst _ _ q x hx with hm | ⟨j, hj, _, hxj⟩
    · exact h x hm
    · subst hxj
      simp [stageOrder]
  · rw [if_neg hb] at hx
    rcases mem_updateFirst _ _ q x hx with hm | ⟨j, hj, _, hxj⟩
    · exact h x hm
    · subst hxj
      exact hns

theorem validStages_fail (q : Queue) (job : Job) (e : String) (now : Nat)
    (h : ValidStages q) :
    ValidStages (fail_job_queue q job e now) := by
  intro x hx
  simp only [fail_job_queue] at hx
  rcases mem_updateFirst _ _ q x hx with hm | ⟨j, hj, _, hxj⟩
  · exact h x hm
  · subst hxj
    exact h j hj

theorem validStages_step (q : Queue) (o : Option String) (now now2 : Nat)
    (h : ValidStages q) :
    ValidStages (process_next_job q o now now2) := by
  unfold process_next_job
  cases hk : claim_next q now with
  | mk fst snd =>
    have hsnd : ValidStages snd := by
      have hv := validStages_claim_next q now h
      rw [hk] at hv
      exact hv
    cases fst with
    | none => exact hsnd
    | some job =>
      cases o with
      | none => exact validStages_finish snd job.id _ now2 (stage_next_mem_stageOrder _) hsnd
      | some e => exact validStages_fail snd job e now2 hsnd

theorem wsteps_validStages (q q' : Queue) (h : WSteps q q') (hv : ValidStages q) :
    ValidStages q' := by
  induction h with
  | refl => exact hv
  | tail _ hstep ih =>
    cases hstep with
    | step o now now2 => exact validStages_step _ o now now2 ih

/-! ### The claimed job, and non-eligible jobs across a step -/

theorem claim_next_untouched (q : Queue) (now : Nat) (i : Nat) (k : Job)
    (hk : (claim_next q now).1 = some k) (hne : k.id ≠ i) :
    findJob (claim_next q now).2 i = findJob q i := by
  rcases claim_next_some q now k hk with ⟨l, j0, r, hdec, _, hkk, hq2, _, _⟩
  have hid : k.id = j0.id := by rw [hkk]; rfl
  rw [hq2, hdec]
  exact findJob_append_replace l r j0 (claimJob j0 now) i rfl (fun hc => hne (by rw [hid, hc]))

theorem claimed_job_was (q : Queue) (now : Nat) (k : Job)
    (hq : UniqueIds q) (hk : (claim_next q now).1 = some k) :
    ∃ j0, findJob q k.id = some j0 ∧ eligible j0 = true ∧ k = claimJob j0 now ∧
      findJob (claim_next q now).2 k.id = some k := by
  rcases claim_next_some q now k hk with ⟨l, j0, r, hdec, he, hkk, hq2, _, _⟩
  have hid : k.id = j0.id := by rw [hkk]; rfl
  have hl : ∀ y ∈ l, y.id ≠ j0.id := uniqueIds_decomp l r j0 (hdec ▸ hq)
  refine ⟨j0, ?_, he, hkk, ?_⟩
  · rw [hdec, hid]
    exact findJob_append_first l r j0 j0.id hl rfl
  · rw [hq2, hid, hkk]
    exact findJob_append_first l r (claimJob j0 now) j0.id hl rfl

theorem completed_stays_step (q : Queue) (o : Option String) (now now2 i : Nat) (j : Job)
    (hq : UniqueIds q) (hj : findJob q i = some j) (hs : j.status = "completed") :
    findJob (process_next_job q o now now2) i = some j := by
  unfold process_next_job
  cases hk : claim_next q now with
  | mk fst snd =>
    cases fst with
    | none =>
      have h1 : (claim_next q now).1 = none := by rw [hk]
      have h2 := (claim_next_none q now h1).1
      rw [hk] at h2
      simp only at h2
      simpa [h2] using hj
    | some k =>
      have h1 : (claim_next q now).1 = some k := by rw [hk]
      have hne : k.id ≠ i := by
        intro hci
        rcases claimed_job_was q now k hq h1 with ⟨j0, hfind, he, _, _⟩
        rw [hci, hj] at hfind
        have hjj : j0 = j := by injection hfind with h; exact h.symm
        rw [hjj] at he
        simp [eligible, hs] at he
      have huntouched : findJob (claim_next q now).2 i = findJob q i :=
        claim_next_untouched q now i k h1 hne
      rw [hk] at huntouched
      simp only at huntouched
      cases o with
      | none =>
        simp only
        rw [findJob_finish_ne snd k.id _ now2 i (Ne.symm hne), huntouched]
        exact hj
      | some e =>
        simp only
        rw [findJob_fail_ne snd k e now2 i (Ne.symm hne), huntouched]
        exact hj

theorem stage_monotone_step (q : Queue) (o : Option String) (now now2 i : Nat) (j j' : Job)
    (hq : UniqueIds q) (hv : ValidStages q)
    (hj : findJob q i = some j)
    (hj' : findJob (process_next_job q o now now2) i = some j') :
    stageIdx j.stage ≤ stageIdx j'.stage := by
  unfold process_next_job at hj'
  revert hj'
  cases hk : claim_next q now with
  | mk fst snd =>
    intro hj'
    cases fst with
    | none =>
      have h1 : (claim_next q now).1 = none := by rw [hk]
      have h2 := (claim_next_none q now h1).1
      rw [hk] at h2
      simp only at h2 hj'
      rw [h2, hj] at hj'
      injection hj' with h
      rw [h]
    | some k =>
      have h1 : (claim_next q now).1 = some k := by rw [hk]
      have hsnd : (claim_next q now).2 = snd := by rw [hk]
      by_cases hne : k.id = i
      · rcases claimed_job_was q now k hq h1 with ⟨j0, hfind, _, hkk, hafter⟩
        have hjj : j0 = j := by
          rw [hne, hj] at hfind
          injection hfind with h
          exact h.symm
        have hmem : j0 ∈ q := (findJob_mem q k.id j0 hfind).1
        have hstage : k.stage = j0.stage := by rw [hkk]; rfl
        rw [hsnd] at hafter
        cases o with
        | none =>
          simp only at hj'
          have hbound : stageIdx j0.stage ≤ stageIdx (stage_next j0.stage) :=
            stageIdx_le_stage_next j0.stage (hv j0 hmem)
          by_cases hc : stage_next k.stage = "completed"
          · rw [hc] at hj'
            rw [← hne] at hj'
            rw [findJob_finish_completed snd k.id now2, hafter] at hj'
            simp only [Option.map_some'] at hj'
            have hst : j'.stage = "completed" := by
              injection hj' with h
              rw [← h]
            rw [hst, ← hc, hstage, ← hjj]
            exact hbound
          · rw [← hne] at hj'
            rw [findJob_finish_advance snd k.id _ now2 hc, hafter] at hj'
            simp only [Option.map_some'] at hj'
            have hst : j'.stage = stage_next k.stage := by
              injection hj' with h
              rw [← h]
            rw [hst, hstage, ← hjj]
            exact hbound
        | some e =>
          simp only at hj'
          rw [← hne] at hj'
          have hkid : (claimJob j0 now).id = k.id := by rw [hkk]
          rw [findJob_fail_self snd k e now2, hafter] at hj'
          simp only [Option.map_some'] at hj'
          have hst : j'.stage = k.stage := by
            injection hj' with h
            rw [← h]
          rw [hst, hstage, ← hjj]
      · have huntouched : findJob (claim_next q now).2 i = findJob q i :=
          claim_next_untouched q now i k h1 hne
        rw [hsnd] at huntouched
        cases o with
        | none =>
          simp only at hj'
          rw [findJob_finish_ne snd k.id _ now2 i (Ne.symm hne), huntouched, hj] at hj'
          injection hj' with h
          rw [h]
        | some e =>
          simp only at hj'
          rw [findJob_fail_ne snd k e now2 i (Ne.symm hne), huntouched, hj] at hj'
          injection hj' with h
          rw [h]

theorem completed_stays (q q' : Queue) (h : WSteps q q') (hq : UniqueIds q)
    (i : Nat) (j : Job) (hj : findJob q i = some j) (hs : j.status = "completed") :
    findJob q' i = some j := by
  induction h with
  | refl => exact hj
  | tail hsteps hstep ih =>
    cases hstep with
    | step o now now2 =>
      exact completed_stays_step _ o now now2 i j
        (wsteps_uniqueIds _ _ hsteps hq) ih hs

theorem stage_monotone_steps (q q' : Queue) (h : WSteps q q')
    (hq : UniqueIds q) (hv : ValidStages q) :
    ∀ i j j', findJob q i = some j → findJob q' i = some j' →
      stageIdx j.stage ≤ stageIdx j'.stage := by
  induction h with
  | refl =>
    intro i j j' hj hj'
    rw [hj] at hj'
    injection hj' with h
    rw [h]
  | tail hsteps hstep ih =>
    intro i j j' hj hj'
    rename_i b c
    have hmemq : i ∈ q.map Job.id := (findJob_isSome_iff q i).mp (by rw [hj]; rfl)
    have hex : (findJob b i).isSome = true := by
      rw [findJob_isSome_iff, wsteps_map_id _ _ hsteps]
      exact hmemq
    obtain ⟨j1, hj1⟩ := Option.isSome_iff_exists.mp hex
    have h1 := ih i j j1 hj hj1
    cases hstep with
    | step o now now2 =>
      exact le_trans h1 (stage_monotone_step b o now now2 i j1 j'
        (wsteps_uniqueIds _ _ hsteps hq) (wsteps_validStages _ _ hsteps hv) hj1 hj')

theorem filter_length_updateFirst (p : Job → Bool) (f : Job → Job) (g : Job → Bool)
    (hp : ∀ j, p j = true → g (f j) = g j) (q : Queue) :
    ((updateFirst p f q).filter g).length = (q.filter g).length := by
  induction q with
  | nil => rfl
  | cons j t ih =>
    simp only [updateFirst]
    by_cases h : p j
    · rw [if_pos h]
      simp only [List.filter_cons]
      rw [hp j h]
      by_cases hg : g j
      · simp [hg]
      · simp [hg]
    · rw [if_neg h]
      simp only [List.filter_cons]
      by_cases hg : g j
      · simp [hg, ih]
      · simp [hg, ih]

/-! ### Claim theorems -/

/-- C5: claim_next selects only jobs whose status is pending or retry,
picks one with the smallest updated_at among them, transitions exactly
that record to status processing with a fresh worker lease in a single
atomic find-and-update (one record rewritten in place, the rest of the
queue untouched), and returns none when no eligible job exists. -/
theorem claim_next_selects_oldest_eligible (q : Queue) (now : Nat) :
    ((claim_next q now).1 = none →
      (claim_next q now).2 = q ∧ ∀ j ∈ q, eligible j = false) ∧
    (∀ k, (claim_next q now).1 = some k →
      k.status = "processing" ∧ k.worker_id = some WORKER_ID ∧ k.started_at = some now ∧
      ∃ l j r, q = l ++ j :: r ∧ eligible j = true ∧ k = claimJob j now ∧
        (claim_next q now).2 = l ++ k :: r ∧
        ∀ x ∈ q, eligible x = true → j.updated_at ≤ x.updated_at) := by
  constructor
  · exact claim_next_none q now
  · intro k hk
    rcases claim_next_some q now k hk with ⟨l, j, r, hdec, he, hkk, hq2, _, hmin⟩
    exact ⟨by rw [hkk]; rfl, by rw [hkk]; rfl, by rw [hkk]; rfl,
      l, j, r, hdec, he, hkk, by rw [hq2, hkk], hmin⟩

/-- Witness for C5 at a concrete queue: the retry job with the older
updated_at is the one claimed. -/
theorem claim_next_selects_oldest_eligible_w :
    (claimJob { newJob 2 22 "CRM-2" "extracted" 4 with status := "retry" } 20).status = "processing" ∧
    (claimJob { newJob 2 22 "CRM-2" "extracted" 4 with status := "retry" } 20).worker_id = some WORKER_ID ∧
    (claimJob { newJob 2 22 "CRM-2" "extracted" 4 with status := "retry" } 20).started_at = some 20 ∧
    ∃ l j r, qC5 = l ++ j :: r ∧ eligible j = true ∧
      claimJob { newJob 2 22 "CRM-2" "extracted" 4 with status := "retry" } 20 = claimJob j 20 ∧
      (claim_next qC5 20).2 = l ++ claimJob { newJob 2 22 "CRM-2" "extracted" 4 with status := "retry" } 20 :: r ∧
      ∀ x ∈ qC5, eligible x = true → j.updated_at ≤ x.updated_at :=
  (claim_next_selects_oldest_eligible qC5 20).2
    (claimJob { newJob 2 22 "CRM-2" "extracted" 4 with status := "retry" } 20) (by decide)

/-- C3: fail_job increments attempts by one; the resulting count at least
MAX_RETRIES makes the status failed (terminal), otherwise retry with the
stage field unchanged; in both cases the worker lease is cleared and the
error text recorded as the job's last error. -/
theorem fail_job_records_attempt (q : Queue) (job : Job) (err : String) (now : Nat)
    (hj : findJob q job.id = some job) :
    findJob (fail_job_queue q job err now) job.id =
      some { job with
        status := if MAX_RETRIES ≤ job.attempts + 1 then "failed" else "retry"
        error := some err
        attempts := job.attempts + 1
        updated_at := now
        worker_id := none
        started_at := none } := by
  rw [findJob_fail_self, hj]
  rfl

/-- Witness for C3: failing a claimed job with one prior attempt leaves it
in retry with two attempts, a cleared lease and the recorded error. -/
theorem fail_job_records_attempt_w :
    findJob (fail_job_queue qMid jobMid "boom" 9) jobMid.id =
      some { jobMid with
        status := "retry"
        error := some "boom"
        attempts := jobMid.attempts + 1
        updated_at := 9
        worker_id := none
        started_at := none } :=
  fail_job_records_attempt qMid jobMid "boom" 9 rfl

/-- C6: enqueue_case upserts keyed on the document id: with no existing
job it appends exactly one new record with status pending and attempts 0;
with an existing job it rewrites that record in place (stage reset, status
pending, error cleared) without changing the queue length; and it
preserves the at-most-one-job-per-document invariant. -/
theorem enqueue_case_upserts (q : Queue) (fid cid : Nat) (cn st : String) (now : Nat) :
    ((∀ j ∈ q, j.case_id ≠ cid) →
      enqueue_case q fid cid cn st now = q ++ [newJob fid cid cn st now] ∧
      (newJob fid cid cn st now).status = "pending" ∧
      (newJob fid cid cn st now).attempts = 0) ∧
    (∀ j0, findCase q cid = some j0 →
      (enqueue_case q fid cid cn st now).length = q.length ∧
      findCase (enqueue_case q fid cid cn st now) cid =
        some { j0 with
          case_id := cid
          case_number := cn
          stage := st
          status := "pending"
          error := none
          updated_at := now }) ∧
    ((∀ c, OneJobPerCase q c) → ∀ c, OneJobPerCase (enqueue_case q fid cid cn st now) c) := by
  refine ⟨?_, ?_, ?_⟩
  · intro hall
    have hfalse : q.any (fun j => j.case_id == cid) = false := by
      rw [List.any_eq_false]
      intro j hj
      simpa using hall j hj
    refine ⟨?_, rfl, rfl⟩
    unfold enqueue_case
    rw [hfalse]
    simp
  · intro j0 hfind
    have hfind' : q.find? (fun j => j.case_id == cid) = some j0 := hfind
    have hp := List.find?_some hfind'
    have hany : q.any (fun j => j.case_id == cid) = true := by
      rw [List.any_eq_true]
      exact ⟨j0, List.mem_of_find?_eq_some hfind', hp⟩
    have hupd : enqueue_case q fid cid cn st now =
        updateFirst (fun j => j.case_id == cid)
          (fun j => { j with
                      case_id := cid
                      case_number := cn
                      stage := st
                      status := "pending"
                      error := none
                      updated_at := now }) q := by
      unfold enqueue_case
      rw [hany]
      simp
    constructor
    · rw [hupd]
      exact length_updateFirst _ _ q
    · rw [hupd]
      unfold findCase at hfind ⊢
      rw [find?_updateFirst _ _ (fun j _ => by simp), hfind]
      rfl
  · intro hinv c
    by_cases hany : q.any (fun j => j.case_id == cid) = true
    · have hupd : enqueue_case q fid cid cn st now =
          updateFirst (fun j => j.case_id == cid)
            (fun j => { j with
                        case_id := cid
                        case_number := cn
                        stage := st
                        status := "pending"
                        error := none
                        updated_at := now }) q := by
        unfold enqueue_case
        rw [hany]
        simp
      unfold OneJobPerCase
      rw [hupd]
      rw [filter_length_updateFirst _ _ _ (fun j hj => by
        have : j.case_id = cid := by simpa using hj
        simp [this])]
      exact hinv c
    · have hfalse : q.any (fun j => j.case_id == cid) = false := by
        cases h2 : q.any (fun j => j.case_id == cid)
        · rfl
        · exact absurd h2 hany
      have hall : ∀ j ∈ q, ¬(j.case_id = cid) := by
        intro j hj
        have := (List.any_eq_false.mp hfalse) j hj
        simpa using this
      have hins : enqueue_case q fid cid cn st now = q ++ [newJob fid cid cn st now] := by
        unfold enqueue_case
        rw [hfalse]
        simp
      unfold OneJobPerCase
      rw [hins, List.filter_append]
      by_cases hc : c = cid
      · subst hc
        have hqnil : q.filter (fun j => j.case_id == c) = [] := by
          rw [List.filter_eq_nil_iff]
          intro j hj
          simpa using hall j hj
        rw [hqnil]
        simp [newJob]
      · have hbe : ¬(cid = c) := fun h => hc h.symm
        have hnnil : ([newJob fid cid cn st now].filter (fun j => j.case_id == c)) = [] := by
          simp [newJob, hbe]
        rw [hnnil]
        simpa using hinv c

/-- Witness for C6 at a concrete queue: re-enqueueing document 11 rewrites
its existing job in place. -/
theorem enqueue_case_upserts_w :
    (enqueue_case qC5 9 11 "CRM-1" "cleaned" 30).length = qC5.length ∧
    findCase (enqueue_case qC5 9 11 "CRM-1" "cleaned" 30) 11 =
      some { newJob 1 11 "CRM-1" "extracted" 10 with
        case_id := 11
        case_number := "CRM-1"
        stage := "cleaned"
        status := "pending"
        error := none
        updated_at := 30 } :=
  (enqueue_case_upserts qC5 9 11 "CRM-1" "cleaned" 30).2.1 (newJob 1 11 "CRM-1" "extracted" 10) (by decide)

/-- C2 counterexample: finishing a job whose last stage value was
"predicted" with next_stage "completed" rewrites the stage field to
"completed" — the stage field is not left unchanged at its last value. -/
theorem finish_completed_changes_stage :
    jobPredicted.stage = "predicted" ∧
    (findJob (finish_job qPredicted 1 "completed" 50) 1).map Job.stage = some "completed" := by
  constructor
  · rfl
  · rfl

/-- C2 amended: finish(job_id, "completed") sets status completed,
finished_at and a cleared lease, and sets the stage field to "completed"
(rather than leaving it at its last value); afterwards no claim_next call
along any further scheduler steps ever selects this job. -/
theorem finish_completed_terminal (q : Queue) (i now : Nat) (j : Job)
    (hq : UniqueIds q) (hj : findJob q i = some j) :
    findJob (finish_job q i "completed" now) i =
      some { j with
        stage := "completed"
        status := "completed"
        finished_at := some now
        updated_at := now
        worker_id := none
        started_at := none } ∧
    ∀ q', WSteps (finish_job q i "completed" now) q' →
      ∀ now' k, (claim_next q' now').1 = some k → k.id ≠ i := by
  have h1 : findJob (finish_job q i "completed" now) i =
      some { j with
        stage := "completed"
        status := "completed"
        finished_at := some now
        updated_at := now
        worker_id := none
        started_at := none } := by
    rw [findJob_finish_completed, hj]
    rfl
  refine ⟨h1, ?_⟩
  intro q' hsteps now' k hk
  have hq1 : UniqueIds (finish_job q i "completed" now) := by
    unfold UniqueIds
    rw [finish_job_map_id]
    exact hq
  have hq' : UniqueIds q' := wsteps_uniqueIds _ _ hsteps hq1
  have hstay := completed_stays _ _ hsteps hq1 i _ h1 rfl
  intro hki
  rcases claimed_job_was q' now' k hq' hk with ⟨j0, hfind, he, _, _⟩
  rw [hki, hstay] at hfind
  have : j0.status = "completed" := by
    injection hfind with h
    rw [← h]
  rw [eligible, this] at he
  simp at he

/-- Witness for C2 amended at a concrete queue. -/
theorem finish_completed_terminal_w :
    findJob (finish_job qPredicted 1 "completed" 50) 1 =
      some { jobPredicted with
        stage := "completed"
        status := "completed"
        finished_at := some 50
        updated_at := 50
        worker_id := none
        started_at := none } :=
  (finish_completed_terminal qPredicted 1 50 jobPredicted (by unfold UniqueIds; decide) rfl).1

/-- C7 counterexample: the lease invariant holds of a queue with one
claimed (processing, leased) job, but enqueue_case on the same document
sets status pending without clearing worker_id/started_at, leaving a
stale lease on a non-processing job. -/
theorem enqueue_breaks_lease_invariant :
    LeaseInv qPredicted ∧ ¬ LeaseInv (enqueue_case qPredicted 9 11 "CRM-1" "extracted" 50) := by
  constructor
  · unfold LeaseInv
    decide
  · unfold LeaseInv
    decide

/-- C7 amended: the three scheduler operations preserve the lease
invariant — claim_next sets the processing status and both lease fields
together, and finish and fail clear the lease together with leaving the
processing status — but enqueue_case does not (see the counterexample):
re-enqueueing a currently processing job leaves a stale lease. -/
theorem lease_invariant_claim_finish_fail (q : Queue) (h : LeaseInv q) :
    (∀ now, LeaseInv (claim_next q now).2) ∧
    (∀ i ns now, LeaseInv (finish_job q i ns now)) ∧
    (∀ job e now, LeaseInv (fail_job_queue q job e now)) := by
  refine ⟨?_, ?_, ?_⟩
  · intro now
    cases hk : (claim_next q now).1 with
    | none =>
      rw [(claim_next_none q now hk).1]
      exact h
    | some k =>
      rcases claim_next_some q now k hk with ⟨l, j, r, hdec, _, _, hq2, _, _⟩
      rw [hq2]
      intro x hx
      rcases List.mem_append.mp hx with hx | hx
      · exact h x (by rw [hdec]; exact List.mem_append.mpr (Or.inl hx))
      · rcases List.mem_cons.mp hx with hx | hx
        · subst hx
          constructor
          · intro _
            exact ⟨by simp [claimJob], by simp [claimJob]⟩
          · intro _
            rfl
        · exact h x (by rw [hdec]; simp [hx])
  · intro i ns now x hx
    unfold finish_job at hx
    by_cases hb : ns == "completed"
    · rw [if_pos hb] at hx
      rcases mem_updateFirst _ _ q x hx with hm | ⟨j, hj, _, hxj⟩
      · exact h x hm
      · subst hxj
        constructor
        · intro hc
          exact absurd hc (by simp)
        · intro hc
          exact absurd hc.1 (by simp)
    · rw [if_neg hb] at hx
      rcases mem_updateFirst _ _ q x hx with hm | ⟨j, hj, _, hxj⟩
      · exact h x hm
      · subst hxj
        constructor
        · intro hc
          exact absurd hc (by simp)
        · intro hc
          exact absurd hc.1 (by simp)
  · intro job e now x hx
    simp only [fail_job_queue] at hx
    rcases mem_updateFirst _ _ q x hx with hm | ⟨j, hj, _, hxj⟩
    · exact h x hm
    · subst hxj
      constructor
      · intro hc
        by_cases hr : MAX_RETRIES ≤ job.attempts + 1 <;> simp [hr] at hc
      · intro hc
        exact absurd hc.1 (by simp)

/-- Witness for C7 amended at a concrete queue. -/
theorem lease_invariant_claim_finish_fail_w :
    LeaseInv (claim_next qC5 20).2 ∧
    LeaseInv (finish_job qPredicted 1 "completed" 50) ∧
    LeaseInv (fail_job_queue qMid jobMid "boom" 9) :=
  ⟨(lease_invariant_claim_finish_fail qC5 (by unfold LeaseInv; decide)).1 20,
   (lease_invariant_claim_finish_fail qPredicted (by unfold LeaseInv; decide)).2.1 1 "completed" 50,
   (lease_invariant_claim_finish_fail qMid (by unfold LeaseInv; decide)).2.2 jobMid "boom" 9⟩

/-- C8: each stage handler of _process_stage returns a stage strictly
later in the fixed ordering than its own, and across every sequence of
scheduler iterations (claim, then finish with the handler result or fail)
a job's stage index never decreases; a fail leaves the stage unchanged. -/
theorem stage_moves_forward :
    (∀ s ∈ handlerStages, stageIdx s < stageIdx (stage_next s)) ∧
    (∀ q q', WSteps q q' → UniqueIds q → ValidStages q →
      ∀ i j j', findJob q i = some j → findJob q' i = some j' →
        stageIdx j.stage ≤ stageIdx j'.stage) ∧
    (∀ q (job : Job) e now,
      (findJob (fail_job_queue q job e now) job.id).map Job.stage =
        (findJob q job.id).map Job.stage) := by
  refine ⟨by decide, ?_, ?_⟩
  · intro q q' h hq hv
    exact stage_monotone_steps q q' h hq hv
  · intro q job e now
    rw [findJob_fail_self]
    cases findJob q job.id <;> rfl

/-- Witness for C8: one scheduler iteration from the uploaded stage moves
the job to extracted, strictly later in the ordering. -/
theorem stage_moves_forward_w :
    stageIdx "uploaded" < stageIdx (stage_next "uploaded") ∧
    stageIdx jobWaiting.stage ≤
      stageIdx ({ jobWaiting with stage := "extracted", status := "pending", updated_at := 2 } : Job).stage :=
  ⟨stage_moves_forward.1 "uploaded" (by decide),
   stage_moves_forward.2.1 qWaiting (process_next_job qWaiting none 1 2)
     (Relation.ReflTransGen.single (WStep.step qWaiting none 1 2))
     (by unfold UniqueIds; decide) (by unfold ValidStages; decide) 1 jobWaiting
     { jobWaiting with stage := "extracted", status := "pending", updated_at := 2 }
     (by decide) (by decide)⟩

/-- C10: enqueue_case sets attempts to 0 only on first insert, so
re-enqueueing a terminally failed job keeps its attempts counter: the job
becomes claimable again (status pending), and any fail whose snapshot
already has MAX_RETRIES attempts marks the job failed immediately. -/
theorem reenqueue_keeps_exhausted_attempts (q : Queue) (fid : Nat) (cn st : String)
    (now : Nat) (j0 : Job) (hfind : findCase q j0.case_id = some j0)
    (_hmax : MAX_RETRIES ≤ j0.attempts) :
    (findCase (enqueue_case q fid j0.case_id cn st now) j0.case_id).map Job.attempts =
      some j0.attempts ∧
    (findCase (enqueue_case q fid j0.case_id cn st now) j0.case_id).map eligible = some true ∧
    (∀ q' (job : Job) e now2 j1, MAX_RETRIES ≤ job.attempts →
      findJob q' job.id = some j1 →
      (findJob (fail_job_queue q' job e now2) job.id).map Job.status = some "failed") := by
  have hafter := (enqueue_case_upserts q fid j0.case_id cn st now).2.1 j0 hfind
  refine ⟨?_, ?_, ?_⟩
  · rw [hafter.2]
    rfl
  · rw [hafter.2]
    simp [eligible]
  · intro q' job e now2 j1 hm hj1
    rw [findJob_fail_self, hj1]
    simp only [Option.map_some']
    have hcond : MAX_RETRIES ≤ job.attempts + 1 := le_trans hm (Nat.le_succ _)
    rw [if_pos hcond]

/-- Witness for C10 at a concrete exhausted job. -/
theorem reenqueue_keeps_exhausted_attempts_w :
    (findCase (enqueue_case qExhausted 9 44 "CRM-4" "extracted" 50) 44).map Job.attempts =
      some jobExhausted.attempts ∧
    (findCase (enqueue_case qExhausted 9 44 "CRM-4" "extracted" 50) 44).map eligible = some true :=
  ⟨((reenqueue_keeps_exhausted_attempts qExhausted 9 "CRM-4" "extracted" 50 jobExhausted
      (by decide) (by decide)).1),
   ((reenqueue_keeps_exhausted_attempts qExhausted 9 "CRM-4" "extracted" 50 jobExhausted
      (by decide) (by decide)).2.1)⟩

/-! ### Mirror failure behaviour -/

theorem mysqlExec_ok (db : MySQL) (f : MySQL → MySQL) (h : db.up = true) :
    mysqlExec db f = Except.ok (f db) := by
  simp [mysqlExec, h]

theorem mysqlExec_down (db : MySQL) (f : MySQL → MySQL) (h : db.up = false) :
    mysqlExec db f = Except.error "MySQL connection failed" := by
  simp [mysqlExec, h]

theorem insertFactsFrom_ok (cid : Nat) (facts : List String) :
    ∀ (idx : Nat) (db : MySQL), db.up = true →
      ∃ d, insertFactsFrom cid db idx facts = Except.ok d ∧ d.up = true := by
  induction facts with
  | nil =>
    intro idx db h
    exact ⟨db, rfl, h⟩
  | cons fc t ih =>
    intro idx db h
    have hstep := mysqlExec_ok db
      (fun x => { x with fact_rows := x.fact_rows ++ [(cid, "fact_" ++ toString idx, fc)] }) h
    simp only [insertFactsFrom, hstep]
    exact ih (idx + 1) _ h

theorem insert_fact_rows_ok (db : MySQL) (cid : Nat) (facts : List String) (h : db.up = true) :
    ∃ d, insert_fact_rows db cid facts = Except.ok d ∧ d.up = true :=
  insertFactsFrom_ok cid facts 1 db h

theorem insert_fact_rows_isOk (db : MySQL) (cid : Nat) (facts : List String) :
    exceptOk (insert_fact_rows db cid facts) = (db.up || facts.isEmpty) := by
  cases facts with
  | nil => simp [insert_fact_rows, insertFactsFrom, exceptOk]
  | cons fc t =>
    cases h : db.up
    · simp [insert_fact_rows, insertFactsFrom, mysqlExec_down db _ h, exceptOk]
    · obtain ⟨d, hd, _⟩ := insert_fact_rows_ok db cid (fc :: t) h
      simp [hd, exceptOk]

theorem upsert_summary_ok (db : MySQL) (cid : Nat) (t : String) (h : db.up = true) :
    ∃ d, upsert_summary db cid t = Except.ok d ∧ d.up = true := by
  unfold upsert_summary
  rw [mysqlExec_ok db _ h]
  exact ⟨_, mysqlExec_ok _ _ h, h⟩

theorem upsert_summary_isOk (db : MySQL) (cid : Nat) (t : String) :
    exceptOk (upsert_summary db cid t) = db.up := by
  cases h : db.up
  · simp [upsert_summary, mysqlExec_down db _ h, exceptOk]
  · obtain ⟨d, hd, _⟩ := upsert_summary_ok db cid t h
    simp [hd, exceptOk]

theorem upsert_translation_isOk (db : MySQL) (cid : Nat) (l t m : String) :
    exceptOk (upsert_translation db cid l t m) = db.up := by
  cases h : db.up
  · simp [upsert_translation, mysqlExec_down db _ h, exceptOk]
  · simp [upsert_translation, mysqlExec, h, exceptOk]

theorem upsert_prediction_isOk (db : MySQL) (cid : Nat) (p : Option String) :
    exceptOk (upsert_prediction db cid p) = db.up := by
  cases h : db.up
  · simp [upsert_prediction, mysqlExec_down db _ h, exceptOk]
  · simp [upsert_prediction, mysqlExec, h, exceptOk]

theorem insertSimilarFrom_ok (source : Nat) (ns : List String) :
    ∀ db : MySQL, db.up = true →
      ∃ d, insertSimilarFrom source db ns = Except.ok d ∧ d.up = true := by
  induction ns with
  | nil =>
    intro db h
    exact ⟨db, rfl, h⟩
  | cons scn t ih =>
    intro db h
    cases hg : get_case_id_mysql db scn with
    | none =>
      simp only [insertSimilarFrom, hg]
      exact ih db h
    | some tid =>
      by_cases hc : tid ≠ 0 ∧ tid ≠ source
      · have hstep := mysqlExec_ok db
          (fun x => { x with similar_rows := x.similar_rows ++ [(source, tid)] }) h
        simp only [insertSimilarFrom, hg, if_pos hc, hstep]
        exact ih _ h
      · simp only [insertSimilarFrom, hg, if_neg hc]
        exact ih db h

theorem replace_similar_cases_isOk (db : MySQL) (source : Nat) (ns : List String) :
    exceptOk (replace_similar_cases db source ns) = db.up := by
  cases h : db.up
  · simp [replace_similar_cases, mysqlExec_down db _ h, exceptOk]
  · obtain ⟨d, hd, _⟩ := insertSimilarFrom_ok source ns
      { db with similar_rows := db.similar_rows.filter (fun r => r.1 ≠ source) } h
    simp only [replace_similar_cases, mysqlExec_ok db _ h, hd, exceptOk]

/-- C1 counterexample: with the mirror connection failing and the document
carrying a mirror case id from the earlier extracted stage, the
cleaned-stage function aborts with the mirror exception instead of
returning its next-stage name — the mirror failure propagates out of the
stage and (through process_next_job's except path) fails the attempt. -/
theorem mirror_failure_propagates_from_cleaned_stage :
    cleanedStage dbDown docMirror "CRM-1" id sumConst id =
      Except.error "MySQL connection failed" := by
  rfl

/-- C1 amended: only the case-upsert mirror write (extracted stage) and
the system-log writes are isolated — the extracted stage never propagates
a mirror failure — while the fact-row, summary, translation, prediction
and similar-cases mirror writes are not wrapped: the cleaned stage
propagates the mirror exception exactly when the mirror is down and a
usable mirror case id is known, and each unwrapped writer returns without
raising exactly when the mirror is up. -/
theorem mirror_isolation_only_case_upsert :
    (∀ db doc cn f meta, exceptOk (extractedStage db doc cn f meta) = true) ∧
    (∀ db doc cn f g b, exceptOk (cleanedStage db doc cn f g b) =
      (db.up || (orFalsy doc.case_id_mysql (get_case_id_mysql db cn)).isNone)) ∧
    (∀ db cid t, exceptOk (upsert_summary db cid t) = db.up) ∧
    (∀ db cid facts, exceptOk (insert_fact_rows db cid facts) = (db.up || facts.isEmpty)) ∧
    (∀ db cid l t m, exceptOk (upsert_translation db cid l t m) = db.up) ∧
    (∀ db cid p, exceptOk (upsert_prediction db cid p) = db.up) ∧
    (∀ db s ns, exceptOk (replace_similar_cases db s ns) = db.up) := by
  refine ⟨fun db doc cn f meta => rfl, ?_, upsert_summary_isOk, insert_fact_rows_isOk,
    upsert_translation_isOk, upsert_prediction_isOk, replace_similar_cases_isOk⟩
  intro db doc cn f g b
  cases hcid : orFalsy doc.case_id_mysql (get_case_id_mysql db cn) with
  | none =>
    simp [cleanedStage, hcid, exceptOk]
  | some cid =>
    cases h : db.up
    · simp [cleanedStage, hcid, mysqlExec_down db _ h, exceptOk]
    · have h1 := mysqlExec_ok db (fun x => { x with fact_rows := x.fact_rows.filter (fun r => r.1 ≠ cid) }) h
      obtain ⟨d2, h2, hup2⟩ := insert_fact_rows_ok
        { db with fact_rows := db.fact_rows.filter (fun r => r.1 ≠ cid) } cid
        (extract_facts (if doc.clean_text ≠ "" then doc.clean_text else f doc.raw_text)) h
      obtain ⟨d3, h3, _⟩ := upsert_summary_ok d2 cid
        ((g (if doc.clean_text ≠ "" then doc.clean_text else f doc.raw_text)).detailed_summary.getD
          (String.intercalate "\n"
            (((g (if doc.clean_text ≠ "" then doc.clean_text else f doc.raw_text)).key_points).map
              (fun p => "- " ++ p)))) hup2
      simp only [cleanedStage, hcid, h1, h2, h3, exceptOk]
      rfl

/-- C4 counterexample: when the Document-store write inside _fail_job
raises, the exception propagates out of _fail_job (the source has no
try/except around the raw_judgments update) — fail() does throw. -/
theorem fail_job_raises_on_doc_write_failure :
    (fail_job qPredicted [docMirror] dbUp false jobPredicted "boom" 7).raised =
      some "document store write failed" := by
  rfl

/-- C4 amended: _fail_job first applies the queue update, then writes the
failure note onto the Document; when that Document write fails the
exception propagates out of _fail_job (only the final system-log write
swallows its own failures), and when it succeeds _fail_job returns
normally.  In both cases the queue update has already been applied. -/
theorem fail_job_raises_iff_doc_write_fails (q : Queue) (docs : List CaseDoc) (db : MySQL)
    (job : Job) (err : String) (now : Nat) :
    (fail_job q docs db true job err now).raised = none ∧
    (fail_job q docs db false job err now).raised = some "document store write failed" ∧
    (∀ u, (fail_job q docs db u job err now).queue = fail_job_queue q job err now) := by
  refine ⟨rfl, rfl, ?_⟩
  intro u
  cases u <;> rfl

/-! ### Chunk stage idempotence -/

theorem chunksOf_chunkStage (col : List ChunkRec) (doc : CaseDoc) (cn : String)
    (f : String → String) (now : Nat) :
    chunksOf (chunkStage col doc cn f now).1 doc.doc_id =
      (chunk_text (if doc.clean_text ≠ "" then doc.clean_text else f doc.raw_text) 180 40).enum.map
        (fun p => { case_id := doc.doc_id
                    case_number := cn
                    chunk_index := p.1
                    text := p.2
                    created_at := now : ChunkRec }) := by
  unfold chunkStage chunksOf
  rw [List.filter_append]
  have h1 : (col.filter (fun c => c.case_id ≠ doc.doc_id)).filter
      (fun c => c.case_id == doc.doc_id) = [] := by
    rw [List.filter_eq_nil_iff]
    intro c hc
    have hne := (List.mem_filter.mp hc).2
    simp at hne ⊢
    exact hne
  have h2 : (((chunk_text (if doc.clean_text ≠ "" then doc.clean_text else f doc.raw_text) 180 40).enum.map
      (fun p => { case_id := doc.doc_id
                  case_number := cn
                  chunk_index := p.1
                  text := p.2
                  created_at := now : ChunkRec })).filter (fun c => c.case_id == doc.doc_id)) =
      ((chunk_text (if doc.clean_text ≠ "" then doc.clean_text else f doc.raw_text) 180 40).enum.map
      (fun p => { case_id := doc.doc_id
                  case_number := cn
                  chunk_index := p.1
                  text := p.2
                  created_at := now : ChunkRec })) := by
    rw [List.filter_eq_self]
    intro c hc
    rcases List.mem_map.mp hc with ⟨p, _, rfl⟩
    simp
  rw [h1, h2]
  rfl

/-- C9: the chunking stage is idempotent: running the translated-stage
chunking twice in a row with no other writes in between stores exactly
the same chunk set for the document as running it once — the same
(chunk index, text) pairs, the same count — and the stored chunk indices
are duplicate-free both times. -/
theorem chunked_stage_idempotent (col : List ChunkRec) (doc : CaseDoc) (cn : String)
    (f : String → String) (now1 now2 : Nat) :
    ((chunksOf (chunkStage (chunkStage col doc cn f now1).1
        (chunkStage col doc cn f now1).2.1 cn f now2).1 doc.doc_id).map
      (fun c => (c.chunk_index, c.text))) =
      ((chunksOf (chunkStage col doc cn f now1).1 doc.doc_id).map
        (fun c => (c.chunk_index, c.text))) ∧
    (chunksOf (chunkStage (chunkStage col doc cn f now1).1
        (chunkStage col doc cn f now1).2.1 cn f now2).1 doc.doc_id).length =
      (chunksOf (chunkStage col doc cn f now1).1 doc.doc_id).length ∧
    ((chunksOf (chunkStage col doc cn f now1).1 doc.doc_id).map ChunkRec.chunk_index).Nodup ∧
    ((chunksOf (chunkStage (chunkStage col doc cn f now1).1
        (chunkStage col doc cn f now1).2.1 cn f now2).1 doc.doc_id).map ChunkRec.chunk_index).Nodup := by
  have hr1 := chunksOf_chunkStage col doc cn f now1
  have hr2 : chunksOf (chunkStage (chunkStage col doc cn f now1).1
      (chunkStage col doc cn f now1).2.1 cn f now2).1 doc.doc_id =
      (chunk_text (if doc.clean_text ≠ "" then doc.clean_text else f doc.raw_text) 180 40).enum.map
        (fun p => { case_id := doc.doc_id
                    case_number := cn
                    chunk_index := p.1
                    text := p.2
                    created_at := now2 : ChunkRec }) :=
    chunksOf_chunkStage (chunkStage col doc cn f now1).1 (chunkStage col doc cn f now1).2.1 cn f now2
  refine ⟨?_, ?_, ?_, ?_⟩
  · rw [hr1, hr2, List.map_map, List.map_map]
    rfl
  · rw [hr1, hr2]
    simp
  · rw [hr1, List.map_map]
    have hfst : ((chunk_text (if doc.clean_text ≠ "" then doc.clean_text else f doc.raw_text) 180 40).enum.map
        (ChunkRec.chunk_index ∘ (fun p => { case_id := doc.doc_id
                                            case_number := cn
                                            chunk_index := p.1
                                            text := p.2
                                            created_at := now1 : ChunkRec }))) =
        ((chunk_text (if doc.clean_text ≠ "" then doc.clean_text else f doc.raw_text) 180 40).enum.map
          Prod.fst) := rfl
    rw [hfst, List.enum_map_fst]
    exact List.nodup_range _
  · rw [hr2, List.map_map]
    have hfst : ((chunk_text (if doc.clean_text ≠ "" then doc.clean_text else f doc.raw_text) 180 40).enum.map
        (ChunkRec.chunk_index ∘ (fun p => { case_id := doc.doc_id
                                            case_number := cn
                                            chunk_index := p.1
                                            text := p.2
                                            created_at := now2 : ChunkRec }))) =
        ((chunk_text (if doc.clean_text ≠ "" then doc.clean_text else f doc.raw_text) 180 40).enum.map
          Prod.fst) := rfl
    rw [hfst, List.enum_map_fst]
    exact List.nodup_range _

end MiniPro
